import Mathlib

/-!
# Zeal `WebView`: navigation history, resource loading and zoom

A shallow embedding of `src/libs/browser/webview.cpp` (class `Zeal::Browser::WebView`).
The widget is a record of the members the code reads and writes; every member
function becomes a state transformer.  Calls that leave the class (network
transport, rendering widget, signals) are recorded in an event log so that
their number and order can be stated.
-/

namespace Zeal.Browser

/-! ## Data model -/

/-- QByteArray: a sequence of byte values. -/
abbrev QByteArray := List Nat

/-- QUrl (Qt), reduced to what `WebView` inspects: the URL text without its
fragment, the fragment when one is present (`none` for no fragment, `some ""`
for an empty one), and whether parsing left an error. Equality is
componentwise, as is `QUrl::operator==`. -/
structure QUrl where
  text : String
  frag : Option String
  parseError : Bool
deriving DecidableEq, Repr

namespace QUrl

/-- The default-constructed `QUrl()`. -/
def empty : QUrl := { text := "", frag := none, parseError := false }

/-- A well-formed URL without fragment. -/
def ofText (t : String) : QUrl := { text := t, frag := none, parseError := false }

/-- A well-formed URL with fragment `f`; `withFragment "" f` is the
fragment-only reference `#f`. -/
def withFragment (t f : String) : QUrl := { text := t, frag := some f, parseError := false }

/-- Embeds `isEmpty()`: no component is present. -/
def isEmpty (u : QUrl) : Bool := decide (u.text = "") && u.frag.isNone

/-- Embeds `isValid()`: the URL is non-empty and carries no error. -/
def isValid (u : QUrl) : Bool := !u.isEmpty && !u.parseError

def hasFragment (u : QUrl) : Bool := u.frag.isSome

/-- Embeds `fragment(QUrl::FullyEncoded)`: the fragment, empty when there is none. -/
def fragment (u : QUrl) : String := u.frag.getD ""

/-- Embeds `setFragment(f)`; the null string (`none`) removes the fragment. -/
def setFragment (u : QUrl) (f : Option String) : QUrl := { u with frag := f }

end QUrl

/-- Embeds `struct HistoryItem` of historyitem.h. -/
structure HistoryItem where
  url : QUrl
  title : String
  vScrollPos : Int
deriving DecidableEq, Repr

/-- Embeds `constexpr size_t s_maxHistoryItems = 15;` -/
def s_maxHistoryItems : Nat := 15

/-- A finished `QNetworkReply`: `error()` (0 is `QNetworkReply::NoError`) and
the bytes `readAll()` hands out. -/
structure QNetworkReply where
  error : Nat
  body : QByteArray
deriving DecidableEq, Repr

/-- Embeds `QNetworkReply::NoError`. -/
def NoError : Nat := 0

/-- Calls that leave `WebView`, in the order the code makes them. -/
inductive Event where
  /-- Embeds `m_nam->get(QNetworkRequest(url))` -/
  | get (url : QUrl)
  /-- Embeds `setHtml(html)` on the rendering widget -/
  | setHtml (html : QByteArray)
  /-- Embeds `Q_EMIT urlChanged(url)` -/
  | urlChanged (url : QUrl)
  /-- Embeds `scrollToAnchor(name)` on the rendering widget -/
  | scrollToAnchor (name : String)
  /-- Embeds `setZoomFactor(percent / 100.0 * (dpi / 96.0))` -/
  | setZoomFactor (percent : Int) (dpi : Int)
  /-- Embeds `emit zoomLevelChanged()` -/
  | zoomLevelChanged
deriving DecidableEq, Repr

/-- What the code consumes from outside the class. -/
structure Env where
  /-- the transport: the reply to the `n`-th request issued by the view -/
  reply : Nat → QUrl → QNetworkReply
  /-- how many events for other receivers the nested loop dispatches before
  the reply to the `n`-th request finishes -/
  pending : Nat → QUrl → Nat
  /-- the caption (title) the render engine gives a document -/
  caption : QByteArray → String
  /-- the scroll offset the render engine moves to for an anchor, from the
  document, the anchor name and the offset before -/
  anchorScroll : QByteArray → String → Int → Int
  /-- the maximum of the vertical scroll bar while a document is rendered (its
  minimum is 0) -/
  scrollMax : QByteArray → Nat
  /-- Embeds `logicalDpiY()` -/
  logicalDpiY : Int

/-- The members of `WebView` (with those of its base widget the code uses). -/
structure WebView where
  /-- Embeds `QLiteHtmlWidget::url()` -/
  url : QUrl
  /-- the document last passed to `setHtml` -/
  html : QByteArray
  /-- Embeds `verticalScrollBar()->value()` -/
  vScroll : Int
  m_zoomLevel : Int
  m_historyBack : List HistoryItem
  m_historyForward : List HistoryItem
  /-- the calls made so far, oldest first -/
  log : List Event
deriving DecidableEq, Repr

def Event.isGet : Event → Bool
  | .get _ => true
  | _ => false

def Event.isSetHtml : Event → Bool
  | .setHtml _ => true
  | _ => false

def Event.isUrlChanged : Event → Bool
  | .urlChanged _ => true
  | _ => false

def Event.isScrollToAnchor : Event → Bool
  | .scrollToAnchor _ => true
  | _ => false

def Event.isZoomLevelChanged : Event → Bool
  | .zoomLevelChanged => true
  | _ => false

/-- Number of network requests in a log. -/
def fetchCount (l : List Event) : Nat := l.countP Event.isGet

/-- Number of renders (`setHtml`) in a log. -/
def renderCount (l : List Event) : Nat := l.countP Event.isSetHtml

/-- Number of `scrollToAnchor` calls in a log. -/
def anchorCount (l : List Event) : Nat := l.countP Event.isScrollToAnchor

/-- Number of `urlChanged` emissions in a log. -/
def urlChangedCount (l : List Event) : Nat := l.countP Event.isUrlChanged

/-- Number of `zoomLevelChanged` emissions in a log. -/
def zoomChangedCount (l : List Event) : Nat := l.countP Event.isZoomLevelChanged

def emit (e : Event) (v : WebView) : WebView := { v with log := v.log ++ [e] }

/-! ## The rendering widget (base class) -/

/-- Modelled from the spec: `QLiteHtmlWidget::setUrl` (third-party base widget,
not among the sources) stores the URL that `url()` returns. -/
def setUrl (u : QUrl) (v : WebView) : WebView := { v with url := u }

/-- Modelled from the spec: `QLiteHtmlWidget::setHtml` (third-party base widget,
not among the sources) replaces the rendered document; the scroll offset is
left at the default of the render engine, 0. Requests the engine may make for
sub-resources of the document while rendering (through the resource handler the
constructor installs) are not modelled: the log counts the requests that `load`
makes for its target. -/
def setHtml (html : QByteArray) (v : WebView) : WebView :=
  emit (.setHtml html) { v with html := html, vScroll := 0 }

/-- Embeds `verticalScrollBar()->setValue(pos)`: the value is bounded to the
range of the scroll bar, which runs from 0 to the maximum the rendered document
gives it. -/
def setVScroll (env : Env) (pos : Int) (v : WebView) : WebView :=
  { v with vScroll := max 0 (min pos (env.scrollMax v.html)) }

/-- Modelled from the spec: `QLiteHtmlWidget::scrollToAnchor` (third-party base
widget, not among the sources) sets the vertical scroll bar to where the render
engine places the anchor. -/
def scrollToAnchor (env : Env) (name : String) (v : WebView) : WebView :=
  emit (.scrollToAnchor name) (setVScroll env (env.anchorScroll v.html name v.vScroll) v)

/-- Modelled from the spec: `QLiteHtmlWidget::title` (third-party base widget,
not among the sources) is the caption of the rendered document. -/
def title (env : Env) (v : WebView) : String := env.caption v.html

/-! ## Zoom -/

/-- Embeds `WebView::availableZoomLevels` -/
def availableZoomLevels : List Int :=
  [30, 40, 50, 67, 80, 90, 100, 110, 120, 133, 150, 170, 200, 220, 233, 250, 270, 285, 300]

/-- Embeds `WebView::defaultZoomLevel`: `availableZoomLevels().indexOf(100)` -/
def defaultZoomLevel : Int := (availableZoomLevels.indexOf 100 : Nat)

/-- Embeds `WebView::zoomLevel` -/
def zoomLevel (v : WebView) : Int := v.m_zoomLevel

/-- Embeds `WebView::setZoomLevel` -/
def setZoomLevel (env : Env) (level : Int) (v : WebView) : WebView :=
  if level = v.m_zoomLevel then v
  else
    let level := max 0 level
    let level := min level ((availableZoomLevels.length : Int) - 1)
    let v := { v with m_zoomLevel := level }
    -- Scale the webview relative to the DPI of the screen.
    let v := emit (.setZoomFactor (availableZoomLevels.getD level.toNat 0) env.logicalDpiY) v
    emit .zoomLevelChanged v

/-- Embeds `WebView::zoomIn` -/
def zoomIn (env : Env) (v : WebView) : WebView := setZoomLevel env (v.m_zoomLevel + 1) v

/-- Embeds `WebView::zoomOut` -/
def zoomOut (env : Env) (v : WebView) : WebView := setZoomLevel env (v.m_zoomLevel - 1) v

/-- Embeds `WebView::resetZoom` -/
def resetZoom (env : Env) (v : WebView) : WebView := setZoomLevel env defaultZoomLevel v

/-! ## Resource loading -/

/-- The local `QEventLoop loop;` of `resourceLoadCallBack`: how often `exit()`
has been called on it. -/
structure QEventLoop where
  exitCalls : Nat
deriving DecidableEq, Repr

/-- Embeds `QEventLoop::exit()` -/
def QEventLoop.exit (l : QEventLoop) : QEventLoop := { exitCalls := l.exitCalls + 1 }

/-- The locals of `resourceLoadCallBack` that the completion lambda captures by
reference. -/
structure Locals where
  data : QByteArray
  loop : QEventLoop
deriving DecidableEq, Repr

/-- The lambda connected to `QNetworkReply::finished`. -/
def finishedSlot (reply : QNetworkReply) (c : Locals) : Locals :=
  let c := if reply.error = NoError then { c with data := reply.body } else c
  -- reply->deleteLater();
  { c with loop := c.loop.exit }

/-- Embeds `loop.exec(QEventLoop::ExcludeUserInputEvents)`: the nested loop dispatches
host events until `exit()` has been called.  The `n` events that precede the
completion of the reply belong to other receivers and cannot reach the locals; the
`finished()` signal then runs the connected slot, after which `exec` returns. -/
def QEventLoop.exec (slot : Locals → Locals) : Nat → Locals → Locals
  | 0, c => slot c
  | n + 1, c => QEventLoop.exec slot n c

/-- What one call of `resourceLoadCallBack` leaves behind: the returned bytes
and the local event loop, when one was constructed. -/
structure Frame where
  data : QByteArray
  loop : Option QEventLoop
deriving DecidableEq, Repr

/-- Embeds `WebView::resourceLoadCallBack` -/
def resourceLoadCallBack (env : Env) (url : QUrl) (v : WebView) : Frame × WebView :=
  if !url.isValid then ({ data := [], loop := none }, v)
  else
    let c : Locals := { data := [], loop := { exitCalls := 0 } }
    let n := fetchCount v.log
    let v := emit (.get url) v
    let reply := env.reply n url
    let c := QEventLoop.exec (finishedSlot reply) (env.pending n url) c
    ({ data := c.data, loop := some c.loop }, v)

/-! ## Navigation -/

/-- Embeds `WebView::currentHistoryItem` -/
def currentHistoryItem (env : Env) (v : WebView) : HistoryItem :=
  { url := v.url, title := title env v, vScrollPos := v.vScroll }

/-- The loop `while (m_historyBack.size() > s_maxHistoryItems)
m_historyBack.erase(m_historyBack.begin());` -/
def trimHistory : List HistoryItem → List HistoryItem
  | [] => []
  | x :: xs => if (x :: xs).length > s_maxHistoryItems then trimHistory xs else x :: xs

/-- Embeds `WebView::load` -/
def load (env : Env) (url : QUrl) (v : WebView) : WebView :=
  if url = v.url then v
  else
    -- add current pos to history
    let v :=
      if v.url.isValid then
        let curr := currentHistoryItem env v
        -- ensure we dont cross limits
        { v with m_historyBack := trimHistory (v.m_historyBack ++ [curr]) }
      else v
    let u := url.setFragment none
    -- only load html if url is different after removing fragment
    let v :=
      if u ≠ v.url then
        let r := resourceLoadCallBack env url v
        let v := setUrl u r.2
        let v := setHtml r.1.data v
        emit (.urlChanged u) v
      else v
    if url.hasFragment then scrollToAnchor env url.fragment v else v

/-- Embeds `WebView::canGoBack` -/
def canGoBack (v : WebView) : Bool := !v.m_historyBack.isEmpty

/-- Embeds `WebView::canGoForward` -/
def canGoForward (v : WebView) : Bool := !v.m_historyForward.isEmpty

/-- Embeds `WebView::back` -/
def back (env : Env) (v : WebView) : WebView :=
  match v.m_historyBack.getLast? with
  | none => v
  | some item =>
    let curr := currentHistoryItem env v
    let v := { v with m_historyForward := curr :: v.m_historyForward }
    let curr := item
    let v := { v with m_historyBack := v.m_historyBack.dropLast }
    let v := load env curr.url v
    if curr.vScrollPos > 0 then setVScroll env curr.vScrollPos v else v

/-- Embeds `WebView::forward` -/
def forward (env : Env) (v : WebView) : WebView :=
  match v.m_historyForward with
  | [] => v
  | item :: rest =>
    let curr := currentHistoryItem env v
    let v := { v with m_historyBack := v.m_historyBack ++ [curr] }
    let curr := item
    let v := { v with m_historyForward := rest }
    let v := load env curr.url v
    if curr.vScrollPos > 0 then setVScroll env curr.vScrollPos v else v

/-- The constructor `WebView::WebView`: members at their defaults (empty URL,
empty history, `m_zoomLevel = 0`), then `setZoomLevel(defaultZoomLevel())`. The
palette and the signal connections have no state of their own: a clicked link
is an `Op.load`, the mouse buttons are `Op.back` and `Op.forward`. -/
def WebView.new (env : Env) : WebView :=
  setZoomLevel env defaultZoomLevel
    { url := QUrl.empty, html := [], vScroll := 0, m_zoomLevel := 0,
      m_historyBack := [], m_historyForward := [], log := [] }

/-! ## Runs -/

/-- What can happen to a constructed view: the public member functions, and the
user moving the vertical scroll bar. -/
inductive Op where
  | load (url : QUrl)
  | back
  | forward
  | setZoomLevel (level : Int)
  | zoomIn
  | zoomOut
  | resetZoom
  | userScroll (pos : Int)
deriving DecidableEq, Repr

def step (env : Env) (v : WebView) : Op → WebView
  | .load url => load env url v
  | .back => back env v
  | .forward => forward env v
  | .setZoomLevel level => setZoomLevel env level v
  | .zoomIn => zoomIn env v
  | .zoomOut => zoomOut env v
  | .resetZoom => resetZoom env v
  | .userScroll pos => setVScroll env pos v

/-- The view after a sequence of operations. -/
def run (env : Env) (ops : List Op) (v : WebView) : WebView := ops.foldl (step env) v

/-- A state of a view that was constructed and then operated on. -/
def Reachable (env : Env) (v : WebView) : Prop := ∃ ops, v = run env ops (WebView.new env)

/-- A transport that answers every request with an empty successful reply, and
a render engine that puts every anchor at offset 0; an empty document has no
scroll range. -/
def plainEnv : Env :=
  { reply := fun _ _ => { error := NoError, body := [] },
    pending := fun _ _ => 0,
    caption := fun _ => "",
    anchorScroll := fun _ _ _ => 0,
    scrollMax := fun _ => 0,
    logicalDpiY := 96 }

/-- A transport that answers every request with a page of three bytes; a
non-empty document has the caption `page` and can be scrolled down to offset
1000, and the render engine puts every anchor at offset 0. -/
def pageEnv : Env :=
  { reply := fun _ _ => { error := NoError, body := [60, 112, 62] },
    pending := fun _ _ => 2,
    caption := fun html => if html = [] then "" else "page",
    anchorScroll := fun _ _ _ => 0,
    scrollMax := fun html => if html = [] then 0 else 1000,
    logicalDpiY := 96 }

/-- As `pageEnv`, but the transport reports an error for every request after
the first three. -/
def flakyEnv : Env :=
  { pageEnv with
    reply := fun n _ => if n < 3 then { error := NoError, body := [60, 112, 62] }
                        else { error := 203, body := [] } }

/-! ## Definitions used in the statements -/

/-- The last `n` elements of a list. -/
def lastN {α : Type} (n : Nat) (l : List α) : List α := l.drop (l.length - n)

/-- The `scrollToAnchor` call `load` ends with, if the target carries a fragment. -/
def anchorEvents (url : QUrl) : List Event :=
  if url.hasFragment then [.scrollToAnchor url.fragment] else []

/-- Neither the current URL nor a recorded back entry carries a fragment. -/
def FragmentFree (v : WebView) : Prop :=
  v.url.frag = none ∧ ∀ i ∈ v.m_historyBack, i.url.frag = none

/-- The scroll offset lies in the range the scroll bar has for the rendered
document. -/
def ScrollInRange (env : Env) (v : WebView) : Prop :=
  0 ≤ v.vScroll ∧ v.vScroll ≤ env.scrollMax v.html

/-- The zoom level indexes the zoom table. -/
def ZoomInRange (v : WebView) : Prop :=
  0 ≤ v.m_zoomLevel ∧ v.m_zoomLevel < (availableZoomLevels.length : Int)

def docA : QUrl := QUrl.ofText "a.html"

def docB : QUrl := QUrl.ofText "b.html"

/-- Fifteen further documents. -/
def fillerDocs : List QUrl :=
  ["d01", "d02", "d03", "d04", "d05", "d06", "d07", "d08", "d09", "d10",
   "d11", "d12", "d13", "d14", "d15"].map QUrl.ofText

/-- Visit `a.html`, jump to an anchor in it, go back, visit fifteen other
documents, return to `a.html`, go forward. -/
def overflowOps : List Op :=
  [.load docA, .load (QUrl.withFragment "a.html" "x"), .back]
    ++ fillerDocs.map Op.load ++ [.load docA, .forward]

/-- The conditional scroll restore that ends `back` and `forward`. -/
def restoreScroll (env : Env) (pos : Int) (v : WebView) : WebView :=
  (if pos > 0 then setVScroll env pos else id) v

/-- Twenty pairwise distinct documents, none with a fragment. -/
def twentyDocs : List QUrl :=
  ["d01", "d02", "d03", "d04", "d05", "d06", "d07", "d08", "d09", "d10",
   "d11", "d12", "d13", "d14", "d15", "d16", "d17", "d18", "d19", "d20"].map QUrl.ofText

/-- Twenty pairwise distinct URLs: ten documents, each visited first at an
anchor and then without fragment. -/
def twentyAnchored : List QUrl :=
  ["p01", "p02", "p03", "p04", "p05", "p06", "p07", "p08", "p09", "p10"].flatMap
    (fun t => [QUrl.withFragment t "x", QUrl.ofText t])

/-- Twenty pairwise distinct fragment-only references `#x01` to `#x20`. -/
def twentyFragments : List QUrl :=
  ["x01", "x02", "x03", "x04", "x05", "x06", "x07", "x08", "x09", "x10",
   "x11", "x12", "x13", "x14", "x15", "x16", "x17", "x18", "x19", "x20"].map
    (QUrl.withFragment "")

/-- The view after the first sixteen of `twentyDocs` were loaded and the page
was scrolled to offset 40: fifteen back entries, showing `d16`. -/
def sixteenLoaded : WebView :=
  run pageEnv ((twentyDocs.take 16).map Op.load ++ [.userScroll 40]) (WebView.new pageEnv)

/-- Starting after `prev`, no URL of the sequence is the fragment-stripped form
of the URL just before it. -/
def eachChanges (prev : QUrl) : List QUrl → Bool
  | [] => true
  | b :: rest => decide (b ≠ prev.setFragment none) && eachChanges b rest

/-- No URL of the sequence is the fragment-stripped form of its predecessor. -/
def noImmediateRevisit : List QUrl → Bool
  | [] => true
  | a :: rest => eachChanges a rest

/-! ## Auxiliary facts -/

theorem trimHistory_eq_drop (l : List HistoryItem) :
    trimHistory l = l.drop (l.length - s_maxHistoryItems) := by
  induction l with
  | nil => simp [trimHistory]
  | cons x xs ih =>
    unfold trimHistory
    split_ifs with h
    · rw [ih]
      simp only [List.length_cons] at h ⊢
      have : xs.length + 1 - s_maxHistoryItems = (xs.length - s_maxHistoryItems) + 1 := by
        unfold s_maxHistoryItems at h ⊢; omega
      rw [this, List.drop_succ_cons]
    · simp only [List.length_cons] at h ⊢
      have : xs.length + 1 - s_maxHistoryItems = 0 := by
        unfold s_maxHistoryItems at h ⊢; omega
      rw [this, List.drop_zero]

theorem trimHistory_eq_lastN (l : List HistoryItem) :
    trimHistory l = lastN s_maxHistoryItems l := trimHistory_eq_drop l

theorem trimHistory_length_le (l : List HistoryItem) :
    (trimHistory l).length ≤ s_maxHistoryItems := by
  rw [trimHistory_eq_drop, List.length_drop]
  omega

theorem trimHistory_of_le (l : List HistoryItem) (h : l.length ≤ s_maxHistoryItems) :
    trimHistory l = l := by
  rw [trimHistory_eq_drop, Nat.sub_eq_zero_of_le h, List.drop_zero]

theorem trimHistory_subset (l : List HistoryItem) : ∀ i ∈ trimHistory l, i ∈ l := by
  intro i hi
  rw [trimHistory_eq_drop] at hi
  exact List.mem_of_mem_drop hi

@[simp] theorem emit_url (e : Event) (v : WebView) : (emit e v).url = v.url := rfl
@[simp] theorem emit_html (e : Event) (v : WebView) : (emit e v).html = v.html := rfl
@[simp] theorem emit_vScroll (e : Event) (v : WebView) : (emit e v).vScroll = v.vScroll := rfl
@[simp] theorem emit_zoom (e : Event) (v : WebView) : (emit e v).m_zoomLevel = v.m_zoomLevel := rfl
@[simp] theorem emit_back (e : Event) (v : WebView) :
    (emit e v).m_historyBack = v.m_historyBack := rfl
@[simp] theorem emit_forward (e : Event) (v : WebView) :
    (emit e v).m_historyForward = v.m_historyForward := rfl
@[simp] theorem emit_log (e : Event) (v : WebView) : (emit e v).log = v.log ++ [e] := rfl

theorem setFragment_none_of_frag (u : QUrl) (h : u.frag = none) : u.setFragment none = u := by
  cases u
  simp only [QUrl.setFragment] at h ⊢
  simp [h]

@[simp] theorem setFragment_frag (u : QUrl) (f : Option String) : (u.setFragment f).frag = f := rfl
@[simp] theorem setFragment_parseError (u : QUrl) (f : Option String) :
    (u.setFragment f).parseError = u.parseError := rfl

theorem isValid_setFragment_some (u : QUrl) (f : String) (h : u.isValid = true) :
    (u.setFragment (some f)).isValid = true := by
  simp only [QUrl.isValid, QUrl.isEmpty, QUrl.setFragment, Bool.and_eq_true,
    Bool.not_eq_true', Bool.and_eq_false_iff, decide_eq_false_iff_not] at h ⊢
  exact ⟨Or.inr rfl, h.2⟩

theorem isValid_of_setFragment_none (u : QUrl) (h : (u.setFragment none).isValid = true) :
    u.isValid = true := by
  simp only [QUrl.isValid, QUrl.isEmpty, QUrl.setFragment, Bool.and_eq_true,
    Bool.not_eq_true', Bool.and_eq_false_iff, decide_eq_false_iff_not] at h ⊢
  refine ⟨?_, h.2⟩
  rcases h.1 with h1 | h1
  · exact Or.inl h1
  · simp at h1

theorem empty_not_valid : QUrl.empty.isValid = false := by decide

/-- A fragment-only reference is valid; without its fragment it is the empty
URL, which is not. -/
theorem setFragment_fragmentOnly (f : String) :
    (QUrl.withFragment "" f).isValid = true ∧
      (QUrl.withFragment "" f).setFragment none = QUrl.empty := by
  exact ⟨rfl, rfl⟩

@[simp] theorem setVScroll_url (env : Env) (p : Int) (v : WebView) :
    (setVScroll env p v).url = v.url := rfl
@[simp] theorem setVScroll_html (env : Env) (p : Int) (v : WebView) :
    (setVScroll env p v).html = v.html := rfl
@[simp] theorem setVScroll_zoom (env : Env) (p : Int) (v : WebView) :
    (setVScroll env p v).m_zoomLevel = v.m_zoomLevel := rfl
@[simp] theorem setVScroll_back (env : Env) (p : Int) (v : WebView) :
    (setVScroll env p v).m_historyBack = v.m_historyBack := rfl
@[simp] theorem setVScroll_forward (env : Env) (p : Int) (v : WebView) :
    (setVScroll env p v).m_historyForward = v.m_historyForward := rfl
@[simp] theorem setVScroll_log (env : Env) (p : Int) (v : WebView) :
    (setVScroll env p v).log = v.log := rfl
theorem setVScroll_vScroll (env : Env) (p : Int) (v : WebView) :
    (setVScroll env p v).vScroll = max 0 (min p (env.scrollMax v.html)) := rfl
@[simp] theorem setFragment_setFragment (u : QUrl) (f g : Option String) :
    (u.setFragment f).setFragment g = u.setFragment g := rfl

theorem resourceLoadCallBack_view (env : Env) (url : QUrl) (v : WebView) :
    (resourceLoadCallBack env url v).2 = if url.isValid then emit (.get url) v else v := by
  unfold resourceLoadCallBack
  cases h : url.isValid <;> simp

theorem exec_eq_slot (slot : Locals → Locals) (n : Nat) (c : Locals) :
    QEventLoop.exec slot n c = slot c := by
  induction n with
  | zero => rfl
  | succ n ih => simpa [QEventLoop.exec] using ih

/-- The back stack after `load`. -/
theorem load_historyBack (env : Env) (url : QUrl) (v : WebView) :
    (load env url v).m_historyBack =
      if url = v.url then v.m_historyBack
      else if v.url.isValid then trimHistory (v.m_historyBack ++ [currentHistoryItem env v])
      else v.m_historyBack := by
  unfold load
  by_cases h1 : url = v.url
  · simp [h1]
  · simp only [h1, if_false]
    cases hf : url.frag <;> cases hv : v.url.isValid <;>
      by_cases h2 : url.setFragment none = v.url <;>
      simp [h2, hv, hf, QUrl.hasFragment, QUrl.fragment, setUrl, setHtml, scrollToAnchor,
        resourceLoadCallBack_view] <;>
      split_ifs <;> simp

/-- The function `load` never touches the forward stack. -/
theorem load_historyForward (env : Env) (url : QUrl) (v : WebView) :
    (load env url v).m_historyForward = v.m_historyForward := by
  unfold load
  by_cases h1 : url = v.url
  · simp [h1]
  · simp only [h1, if_false]
    cases hf : url.frag <;> cases hv : v.url.isValid <;>
      by_cases h2 : url.setFragment none = v.url <;>
      simp [h2, hv, hf, QUrl.hasFragment, QUrl.fragment, setUrl, setHtml, scrollToAnchor,
        resourceLoadCallBack_view] <;>
      split_ifs <;> simp

/-- The function `load` never touches the zoom level. -/
theorem load_zoom (env : Env) (url : QUrl) (v : WebView) :
    (load env url v).m_zoomLevel = v.m_zoomLevel := by
  unfold load
  by_cases h1 : url = v.url
  · simp [h1]
  · simp only [h1, if_false]
    cases hf : url.frag <;> cases hv : v.url.isValid <;>
      by_cases h2 : url.setFragment none = v.url <;>
      simp [h2, hv, hf, QUrl.hasFragment, QUrl.fragment, setUrl, setHtml, scrollToAnchor,
        resourceLoadCallBack_view] <;>
      split_ifs <;> simp

/-- When the current URL carries no fragment, the URL after `load` is the
target without its fragment. -/
theorem load_url (env : Env) (url : QUrl) (v : WebView) (h : v.url.frag = none) :
    (load env url v).url = url.setFragment none := by
  unfold load
  by_cases h1 : url = v.url
  · simp only [h1, if_true]
    exact (setFragment_none_of_frag _ h).symm
  · simp only [h1, if_false]
    cases hf : url.frag <;> cases hv : v.url.isValid <;>
      by_cases h2 : url.setFragment none = v.url <;>
      simp [h2, hv, hf, QUrl.hasFragment, QUrl.fragment, setUrl, setHtml, scrollToAnchor,
        resourceLoadCallBack_view]

/-- A document-changing `load` of a target without fragment leaves the scroll
offset at 0. -/
theorem load_vScroll_of_change (env : Env) (url : QUrl) (v : WebView)
    (hf : url.frag = none) (hne : url ≠ v.url) : (load env url v).vScroll = 0 := by
  unfold load
  have h2 : url.setFragment none ≠ v.url := by
    rw [setFragment_none_of_frag _ hf]; exact hne
  simp only [hne, if_false]
  cases hv : v.url.isValid <;>
    simp [h2, hf, hv, QUrl.hasFragment, setUrl, setHtml, resourceLoadCallBack_view]

/-- The calls `load` makes. -/
theorem load_log (env : Env) (url : QUrl) (v : WebView) :
    ∃ data, (load env url v).log =
      if url = v.url then v.log
      else if url.setFragment none ≠ v.url then
        v.log ++ (if url.isValid then [.get url] else [])
          ++ [.setHtml data, .urlChanged (url.setFragment none)] ++ anchorEvents url
      else v.log ++ anchorEvents url := by
  unfold load
  by_cases h1 : url = v.url
  · exact ⟨[], by simp [h1]⟩
  · simp only [h1, if_false]
    by_cases h2 : url.setFragment none = v.url
    · refine ⟨[], ?_⟩
      cases hf : url.frag <;> cases hv : v.url.isValid <;>
        simp [h2, hv, hf, QUrl.hasFragment, QUrl.fragment, anchorEvents, scrollToAnchor]
    · cases hv : v.url.isValid
      · refine ⟨(resourceLoadCallBack env url v).1.data, ?_⟩
        cases hf : url.frag <;> cases hu : url.isValid <;>
          simp [h2, hv, hf, hu, QUrl.hasFragment, QUrl.fragment, anchorEvents, scrollToAnchor,
            setUrl, setHtml,
            resourceLoadCallBack_view]
      · refine ⟨(resourceLoadCallBack env url
          { v with m_historyBack :=
              trimHistory (v.m_historyBack ++ [currentHistoryItem env v]) }).1.data, ?_⟩
        cases hf : url.frag <;> cases hu : url.isValid <;>
          simp [h2, hv, hf, hu, QUrl.hasFragment, QUrl.fragment, anchorEvents, scrollToAnchor,
            setUrl, setHtml,
            resourceLoadCallBack_view]

theorem availableZoomLevels_length : availableZoomLevels.length = 19 := rfl

theorem setZoomLevel_zoom (env : Env) (level : Int) (v : WebView) :
    (setZoomLevel env level v).m_zoomLevel =
      if level = v.m_zoomLevel then v.m_zoomLevel else min (max 0 level) 18 := by
  unfold setZoomLevel
  split_ifs with h
  · rfl
  · simp [availableZoomLevels_length]

theorem setZoomLevel_url (env : Env) (level : Int) (v : WebView) :
    (setZoomLevel env level v).url = v.url := by
  unfold setZoomLevel
  split_ifs <;> rfl

theorem setZoomLevel_back (env : Env) (level : Int) (v : WebView) :
    (setZoomLevel env level v).m_historyBack = v.m_historyBack := by
  unfold setZoomLevel
  split_ifs <;> rfl

theorem setZoomLevel_zoomInRange (env : Env) (level : Int) (v : WebView)
    (h : ZoomInRange v) : ZoomInRange (setZoomLevel env level v) := by
  unfold ZoomInRange at h ⊢
  rw [setZoomLevel_zoom, availableZoomLevels_length] at *
  split_ifs
  · exact h
  · constructor
    · exact le_min (le_max_left 0 level) (by norm_num)
    · exact lt_of_le_of_lt (min_le_right _ _) (by norm_num)

theorem restoreScroll_url (env : Env) (pos : Int) (v : WebView) :
    (restoreScroll env pos v).url = v.url := by
  unfold restoreScroll; split_ifs <;> rfl

theorem restoreScroll_html (env : Env) (pos : Int) (v : WebView) :
    (restoreScroll env pos v).html = v.html := by
  unfold restoreScroll; split_ifs <;> rfl

theorem restoreScroll_forward (env : Env) (pos : Int) (v : WebView) :
    (restoreScroll env pos v).m_historyForward = v.m_historyForward := by
  unfold restoreScroll; split_ifs <;> rfl

theorem restoreScroll_vScroll (env : Env) (pos : Int) (v : WebView) :
    (restoreScroll env pos v).vScroll
      = if pos > 0 then max 0 (min pos (env.scrollMax v.html)) else v.vScroll := by
  unfold restoreScroll; split_ifs <;> rfl

theorem load_of_eq (env : Env) (url : QUrl) (v : WebView) (h : url = v.url) :
    load env url v = v := by
  unfold load
  rw [if_pos h]

theorem restoreScroll_back (env : Env) (pos : Int) (v : WebView) :
    (restoreScroll env pos v).m_historyBack = v.m_historyBack := by
  unfold restoreScroll; split_ifs <;> rfl

theorem restoreScroll_zoom (env : Env) (pos : Int) (v : WebView) :
    (restoreScroll env pos v).m_zoomLevel = v.m_zoomLevel := by
  unfold restoreScroll; split_ifs <;> rfl

theorem restoreScroll_fragmentFree (env : Env) (pos : Int) (v : WebView)
    (h : FragmentFree v) : FragmentFree (restoreScroll env pos v) := by
  unfold FragmentFree
  rw [restoreScroll_url, restoreScroll_back]
  exact h

theorem back_eq (env : Env) (v : WebView) (item : HistoryItem)
    (h : v.m_historyBack.getLast? = some item) :
    back env v =
      restoreScroll env item.vScrollPos
        (load env item.url
          { v with m_historyForward := currentHistoryItem env v :: v.m_historyForward,
                   m_historyBack := v.m_historyBack.dropLast }) := by
  unfold back restoreScroll
  rw [h]
  simp only
  split_ifs <;> rfl

theorem back_of_empty (env : Env) (v : WebView) (h : v.m_historyBack = []) :
    back env v = v := by
  unfold back
  rw [h]
  rfl

theorem forward_eq (env : Env) (v : WebView) (item : HistoryItem) (rest : List HistoryItem)
    (h : v.m_historyForward = item :: rest) :
    forward env v =
      restoreScroll env item.vScrollPos
        (load env item.url
          { v with m_historyBack := v.m_historyBack ++ [currentHistoryItem env v],
                   m_historyForward := rest }) := by
  unfold forward restoreScroll
  rw [h]
  simp only
  split_ifs <;> rfl

theorem forward_of_empty (env : Env) (v : WebView) (h : v.m_historyForward = []) :
    forward env v = v := by
  unfold forward
  rw [h]

theorem load_fragmentFree (env : Env) (url : QUrl) (v : WebView) (h : FragmentFree v) :
    FragmentFree (load env url v) := by
  refine ⟨?_, ?_⟩
  · rw [load_url env url v h.1]; rfl
  · rw [load_historyBack]
    split_ifs
    · exact h.2
    · intro i hi
      have hi := trimHistory_subset _ i hi
      rcases List.mem_append.mp hi with hi | hi
      · exact h.2 i hi
      · rw [List.mem_singleton.mp hi]
        exact h.1
    · exact h.2

theorem back_fragmentFree (env : Env) (v : WebView) (h : FragmentFree v) :
    FragmentFree (back env v) := by
  cases hl : v.m_historyBack.getLast? with
  | none =>
    rw [back_of_empty env v (List.getLast?_eq_none_iff.mp hl)]
    exact h
  | some item =>
    rw [back_eq env v item hl]
    apply restoreScroll_fragmentFree
    apply load_fragmentFree
    exact ⟨h.1, fun i hi => h.2 i (List.dropLast_subset _ hi)⟩

theorem forward_fragmentFree (env : Env) (v : WebView) (h : FragmentFree v) :
    FragmentFree (forward env v) := by
  cases hl : v.m_historyForward with
  | nil =>
    rw [forward_of_empty env v hl]
    exact h
  | cons item rest =>
    rw [forward_eq env v item rest hl]
    apply restoreScroll_fragmentFree
    apply load_fragmentFree
    refine ⟨h.1, fun i hi => ?_⟩
    rcases List.mem_append.mp hi with hi | hi
    · exact h.2 i hi
    · rw [List.mem_singleton.mp hi]
      exact h.1

theorem setZoomLevel_fragmentFree (env : Env) (level : Int) (v : WebView)
    (h : FragmentFree v) : FragmentFree (setZoomLevel env level v) := by
  unfold FragmentFree
  rw [setZoomLevel_url, setZoomLevel_back]
  exact h

theorem back_zoom (env : Env) (v : WebView) : (back env v).m_zoomLevel = v.m_zoomLevel := by
  cases hl : v.m_historyBack.getLast? with
  | none => rw [back_of_empty env v (List.getLast?_eq_none_iff.mp hl)]
  | some item => rw [back_eq env v item hl, restoreScroll_zoom, load_zoom]

theorem forward_zoom (env : Env) (v : WebView) :
    (forward env v).m_zoomLevel = v.m_zoomLevel := by
  cases hl : v.m_historyForward with
  | nil => rw [forward_of_empty env v hl]
  | cons item rest => rw [forward_eq env v item rest hl, restoreScroll_zoom, load_zoom]

theorem step_fragmentFree (env : Env) (v : WebView) (op : Op) (h : FragmentFree v) :
    FragmentFree (step env v op) := by
  cases op with
  | load url => exact load_fragmentFree env url v h
  | back => exact back_fragmentFree env v h
  | forward => exact forward_fragmentFree env v h
  | setZoomLevel level => exact setZoomLevel_fragmentFree env level v h
  | zoomIn => exact setZoomLevel_fragmentFree env _ v h
  | zoomOut => exact setZoomLevel_fragmentFree env _ v h
  | resetZoom => exact setZoomLevel_fragmentFree env _ v h
  | userScroll pos => exact h

theorem step_zoomInRange (env : Env) (v : WebView) (op : Op) (h : ZoomInRange v) :
    ZoomInRange (step env v op) := by
  cases op with
  | load url => unfold ZoomInRange; simp only [step]; rw [load_zoom]; exact h
  | back => unfold ZoomInRange; simp only [step]; rw [back_zoom]; exact h
  | forward => unfold ZoomInRange; simp only [step]; rw [forward_zoom]; exact h
  | setZoomLevel level => exact setZoomLevel_zoomInRange env level v h
  | zoomIn => exact setZoomLevel_zoomInRange env _ v h
  | zoomOut => exact setZoomLevel_zoomInRange env _ v h
  | resetZoom => exact setZoomLevel_zoomInRange env _ v h
  | userScroll pos => exact h

/-- A property that holds of `v` and is kept by every operation holds after
every run from `v`. -/
theorem run_invariant (env : Env) (P : WebView → Prop)
    (hstep : ∀ v op, P v → P (step env v op)) :
    ∀ (ops : List Op) (v : WebView), P v → P (run env ops v) := by
  intro ops
  induction ops with
  | nil => intro v hv; exact hv
  | cons op ops ih => intro v hv; exact ih _ (hstep v op hv)

theorem new_fragmentFree (env : Env) : FragmentFree (WebView.new env) := by
  unfold WebView.new
  apply setZoomLevel_fragmentFree
  exact ⟨rfl, fun i hi => by cases hi⟩

theorem new_zoomInRange (env : Env) : ZoomInRange (WebView.new env) := by
  unfold WebView.new
  apply setZoomLevel_zoomInRange
  exact ⟨le_refl _, by decide⟩

theorem reachable_fragmentFree (env : Env) (v : WebView) (h : Reachable env v) :
    FragmentFree v := by
  obtain ⟨ops, rfl⟩ := h
  exact run_invariant env FragmentFree (step_fragmentFree env) ops _ (new_fragmentFree env)

theorem reachable_zoomInRange (env : Env) (v : WebView) (h : Reachable env v) :
    ZoomInRange v := by
  obtain ⟨ops, rfl⟩ := h
  exact run_invariant env ZoomInRange (step_zoomInRange env) ops _ (new_zoomInRange env)

theorem fetchCount_append (l₁ l₂ : List Event) :
    fetchCount (l₁ ++ l₂) = fetchCount l₁ + fetchCount l₂ := by
  simp [fetchCount]

theorem renderCount_append (l₁ l₂ : List Event) :
    renderCount (l₁ ++ l₂) = renderCount l₁ + renderCount l₂ := by
  simp [renderCount]

theorem anchorCount_append (l₁ l₂ : List Event) :
    anchorCount (l₁ ++ l₂) = anchorCount l₁ + anchorCount l₂ := by
  simp [anchorCount]

theorem anchorEvents_fetchCount (t : QUrl) : fetchCount (anchorEvents t) = 0 := by
  unfold anchorEvents
  split_ifs <;> rfl

theorem anchorEvents_renderCount (t : QUrl) : renderCount (anchorEvents t) = 0 := by
  unfold anchorEvents
  split_ifs <;> rfl

theorem anchorEvents_anchorCount (t : QUrl) :
    anchorCount (anchorEvents t) = if t.hasFragment then 1 else 0 := by
  unfold anchorEvents
  split_ifs <;> rfl

/-- The calls of a `load` whose target, fragment removed, is the current URL. -/
theorem load_log_same_document (env : Env) (v : WebView) (t : QUrl)
    (hsame : t.setFragment none = v.url) :
    (load env t v).log = v.log ++ anchorEvents t := by
  obtain ⟨data, h⟩ := load_log env t v
  rw [h]
  by_cases h1 : t = v.url
  · have : t.frag = none := by rw [h1, ← hsame]; rfl
    rw [if_pos h1]
    simp [anchorEvents, QUrl.hasFragment, this]
  · simp [h1, hsame]

/-- The calls of a `load` of a valid target that changes the document. -/
theorem load_log_change (env : Env) (v : WebView) (t : QUrl)
    (hvalid : t.isValid = true) (h1 : t ≠ v.url) (hne : t.setFragment none ≠ v.url) :
    ∃ data, (load env t v).log =
      v.log ++ [.get t, .setHtml data, .urlChanged (t.setFragment none)] ++ anchorEvents t := by
  obtain ⟨data, h⟩ := load_log env t v
  refine ⟨data, ?_⟩
  rw [h]
  simp [h1, hne, hvalid]

theorem setVScroll_scrollInRange (env : Env) (pos : Int) (v : WebView) :
    ScrollInRange env (setVScroll env pos v) := by
  unfold ScrollInRange
  rw [setVScroll_vScroll, setVScroll_html]
  omega

theorem restoreScroll_scrollInRange (env : Env) (pos : Int) (v : WebView)
    (h : ScrollInRange env v) : ScrollInRange env (restoreScroll env pos v) := by
  unfold restoreScroll
  split_ifs
  · exact setVScroll_scrollInRange env pos v
  · exact h

theorem load_scrollInRange (env : Env) (url : QUrl) (v : WebView)
    (h : ScrollInRange env v) : ScrollInRange env (load env url v) := by
  unfold load
  by_cases h1 : url = v.url
  · rw [if_pos h1]; exact h
  · unfold ScrollInRange at h ⊢
    simp only [h1, if_false]
    cases hf : url.frag <;> cases hv : v.url.isValid <;>
      by_cases h2 : url.setFragment none = v.url <;>
      simp [h2, hv, hf, QUrl.hasFragment, QUrl.fragment, setUrl, setHtml, scrollToAnchor,
        setVScroll_vScroll, resourceLoadCallBack_view] <;>
      omega

theorem setZoomLevel_vScroll (env : Env) (level : Int) (v : WebView) :
    (setZoomLevel env level v).vScroll = v.vScroll := by
  unfold setZoomLevel
  split_ifs <;> rfl

theorem setZoomLevel_html (env : Env) (level : Int) (v : WebView) :
    (setZoomLevel env level v).html = v.html := by
  unfold setZoomLevel
  split_ifs <;> rfl

theorem setZoomLevel_scrollInRange (env : Env) (level : Int) (v : WebView)
    (h : ScrollInRange env v) : ScrollInRange env (setZoomLevel env level v) := by
  unfold ScrollInRange
  rw [setZoomLevel_vScroll, setZoomLevel_html]
  exact h

theorem back_scrollInRange (env : Env) (v : WebView) (h : ScrollInRange env v) :
    ScrollInRange env (back env v) := by
  cases hl : v.m_historyBack.getLast? with
  | none =>
    rw [back_of_empty env v (List.getLast?_eq_none_iff.mp hl)]
    exact h
  | some item =>
    rw [back_eq env v item hl]
    exact restoreScroll_scrollInRange env _ _ (load_scrollInRange env _ _ h)

theorem forward_scrollInRange (env : Env) (v : WebView) (h : ScrollInRange env v) :
    ScrollInRange env (forward env v) := by
  cases hl : v.m_historyForward with
  | nil =>
    rw [forward_of_empty env v hl]
    exact h
  | cons item rest =>
    rw [forward_eq env v item rest hl]
    exact restoreScroll_scrollInRange env _ _ (load_scrollInRange env _ _ h)

theorem step_scrollInRange (env : Env) (v : WebView) (op : Op) (h : ScrollInRange env v) :
    ScrollInRange env (step env v op) := by
  cases op with
  | load url => exact load_scrollInRange env url v h
  | back => exact back_scrollInRange env v h
  | forward => exact forward_scrollInRange env v h
  | setZoomLevel level => exact setZoomLevel_scrollInRange env level v h
  | zoomIn => exact setZoomLevel_scrollInRange env _ v h
  | zoomOut => exact setZoomLevel_scrollInRange env _ v h
  | resetZoom => exact setZoomLevel_scrollInRange env _ v h
  | userScroll pos => exact setVScroll_scrollInRange env pos v

theorem new_scrollInRange (env : Env) : ScrollInRange env (WebView.new env) := by
  unfold WebView.new
  apply setZoomLevel_scrollInRange
  exact ⟨le_refl _, Int.ofNat_nonneg _⟩

theorem reachable_scrollInRange (env : Env) (v : WebView) (h : Reachable env v) :
    ScrollInRange env v := by
  obtain ⟨ops, rfl⟩ := h
  exact run_invariant env (ScrollInRange env) (step_scrollInRange env) ops _
    (new_scrollInRange env)

theorem lastN_of_le {α : Type} (n : Nat) (l : List α) (h : l.length ≤ n) : lastN n l = l := by
  unfold lastN
  rw [Nat.sub_eq_zero_of_le h, List.drop_zero]

theorem lastN_length_le {α : Type} (n : Nat) (l : List α) : (lastN n l).length ≤ n := by
  unfold lastN
  rw [List.length_drop]
  omega

theorem lastN_lastN_append {α : Type} (n : Nat) (l b : List α) :
    lastN n (lastN n l ++ b) = lastN n (l ++ b) := by
  by_cases h : l.length ≤ n
  · rw [lastN_of_le n l h]
  · unfold lastN
    have hk : l.length - n ≤ l.length := Nat.sub_le _ _
    have hlen : (List.drop (l.length - n) l).length = n := by
      rw [List.length_drop]; omega
    have e1 : (List.drop (l.length - n) l ++ b).length - n = b.length := by
      rw [List.length_append, hlen]; omega
    have e2 : (l ++ b).length - n = (l.length - n) + b.length := by
      rw [List.length_append]; omega
    rw [e1, e2, ← List.drop_drop, List.drop_append_of_le_length hk]

theorem map_lastN {α β : Type} (f : α → β) (n : Nat) (l : List α) :
    (lastN n l).map f = lastN n (l.map f) := by
  unfold lastN
  rw [List.map_drop, List.length_map]

theorem setZoomLevel_forward (env : Env) (level : Int) (v : WebView) :
    (setZoomLevel env level v).m_historyForward = v.m_historyForward := by
  unfold setZoomLevel
  split_ifs <;> rfl

theorem eachChanges_setFragment (t : QUrl) (rest : List QUrl)
    (h : eachChanges t rest = true) : eachChanges (t.setFragment none) rest = true := by
  cases rest with
  | nil => rfl
  | cons r rs => exact h

theorem eachChanges_take (k : Nat) :
    ∀ (l : List QUrl) (prev : QUrl), eachChanges prev l = true →
      eachChanges prev (l.take k) = true := by
  induction k with
  | zero => intro l prev _; rfl
  | succ k ih =>
    intro l prev h
    cases l with
    | nil => rfl
    | cons b rest =>
      simp only [List.take_succ_cons, eachChanges, Bool.and_eq_true, decide_eq_true_eq] at h ⊢
      exact ⟨h.1, ih rest b h.2⟩

theorem noImmediateRevisit_take (k : Nat) (l : List QUrl)
    (h : noImmediateRevisit l = true) : noImmediateRevisit (l.take k) = true := by
  cases l with
  | nil => simp [noImmediateRevisit]
  | cons a rest =>
    cases k with
    | zero => rfl
    | succ k => exact eachChanges_take k rest a h

/-- Loading a sequence of URLs that stay valid without their fragment, none of
which is the fragment-stripped form of its predecessor, from a view on a valid
URL: every load records the page being left. -/
theorem loads_history (env : Env) :
    ∀ (urls : List QUrl) (v : WebView), v.url.frag = none → v.url.isValid = true →
      v.m_historyBack.length ≤ 15 → (∀ u ∈ urls, (u.setFragment none).isValid = true) →
      eachChanges v.url urls = true →
      (run env (urls.map Op.load) v).m_historyBack.map (fun i => i.url)
          = lastN 15 (v.m_historyBack.map (fun i => i.url)
              ++ (v.url :: urls.map (fun u => u.setFragment none)).dropLast) ∧
        (run env (urls.map Op.load) v).m_historyForward = v.m_historyForward := by
  intro urls
  induction urls with
  | nil =>
    intro v _ _ hlen _ _
    simp only [List.map_nil, run, List.foldl_nil, List.dropLast_single, List.append_nil,
      and_true]
    rw [lastN_of_le]
    simpa using hlen
  | cons t rest ih =>
    intro v hfrag hvalid hlen hall hchain
    simp only [eachChanges, Bool.and_eq_true, decide_eq_true_eq] at hchain
    obtain ⟨hne, hrest⟩ := hchain
    have hne1 : t ≠ v.url := by
      have : t ≠ v.url.setFragment none := hne
      rwa [setFragment_none_of_frag _ hfrag] at this
    have hurl : (load env t v).url = t.setFragment none := load_url env t v hfrag
    have hbk : (load env t v).m_historyBack
        = lastN 15 (v.m_historyBack ++ [currentHistoryItem env v]) := by
      rw [load_historyBack]
      simp only [hne1, if_false, hvalid, if_true]
      exact trimHistory_eq_lastN _
    have hchain1 : eachChanges (load env t v).url rest = true := by
      rw [hurl]
      exact eachChanges_setFragment t rest hrest
    have step1 := ih (load env t v) (by rw [hurl]; rfl)
      (by rw [hurl]; exact hall t (List.mem_cons_self _ _))
      (by rw [hbk]; exact lastN_length_le _ _)
      (fun u hu => hall u (List.mem_cons_of_mem _ hu)) hchain1
    have hrun : run env ((t :: rest).map Op.load) v
        = run env (rest.map Op.load) (load env t v) := rfl
    rw [hrun, step1.1, step1.2, load_historyForward, hbk, map_lastN, lastN_lastN_append, hurl]
    refine ⟨?_, rfl⟩
    congr 1
    simp [currentHistoryItem, List.dropLast]

theorem new_url (env : Env) : (WebView.new env).url = QUrl.empty := by
  unfold WebView.new; rw [setZoomLevel_url]

theorem new_back (env : Env) : (WebView.new env).m_historyBack = [] := by
  unfold WebView.new; rw [setZoomLevel_back]

theorem new_forward (env : Env) : (WebView.new env).m_historyForward = [] := by
  unfold WebView.new; rw [setZoomLevel_forward]

/-- Loading, from a fresh view, URLs that stay valid without their fragment and
none of which is the fragment-stripped form of its predecessor: the first load
records nothing, every later load records the page being left. -/
theorem loads_from_new (env : Env) (urls : List QUrl)
    (hvalid : ∀ u ∈ urls, (u.setFragment none).isValid = true)
    (hchain : noImmediateRevisit urls = true) :
    (run env (urls.map Op.load) (WebView.new env)).m_historyBack.map (fun i => i.url)
        = lastN 15 (urls.map (fun u => u.setFragment none)).dropLast ∧
      (run env (urls.map Op.load) (WebView.new env)).m_historyForward = [] := by
  cases urls with
  | nil =>
    simp only [List.map_nil, run, List.foldl_nil, new_back, new_forward, List.dropLast_nil,
      and_true]
    rfl
  | cons t rest =>
    have ht : t.isValid = true :=
      isValid_of_setFragment_none t (hvalid t (List.mem_cons_self _ _))
    have hurl : (load env t (WebView.new env)).url = t.setFragment none :=
      load_url env t _ (new_fragmentFree env).1
    have hbk : (load env t (WebView.new env)).m_historyBack = [] := by
      rw [load_historyBack, new_url, new_back, empty_not_valid]
      simp
    have hfw : (load env t (WebView.new env)).m_historyForward = [] := by
      rw [load_historyForward, new_forward]
    have hrun : run env ((t :: rest).map Op.load) (WebView.new env)
        = run env (rest.map Op.load) (load env t (WebView.new env)) := rfl
    have main := loads_history env rest (load env t (WebView.new env))
      (by rw [hurl]; rfl) (by rw [hurl]; exact hvalid t (List.mem_cons_self _ _))
      (by rw [hbk]; simp)
      (fun u hu => hvalid u (List.mem_cons_of_mem _ hu))
      (by rw [hurl]; exact eachChanges_setFragment t rest hchain)
    rw [hrun]
    rw [hbk, hurl, hfw] at main
    rw [main.1, main.2, List.map_nil, List.nil_append, List.map_cons]
    exact ⟨rfl, rfl⟩

theorem take_dropLast {α : Type} (l : List α) (k : Nat) (h : k ≤ l.length) :
    (l.take k).dropLast = l.take (k - 1) := by
  rw [List.dropLast_eq_take, List.length_take, Nat.min_eq_left h, List.take_take,
    Nat.min_eq_left (Nat.sub_le k 1)]

/-! ## Claims -/

/-- C1 (code defect): the back stack can exceed `s_maxHistoryItems`.  After the
run `overflowOps` of `load`, `back` and `forward` calls from a fresh view the
back stack holds 16 entries: `forward()` appends the current entry without the
eviction loop, and the `load` it calls returns early because the forward entry
has the current URL. -/
theorem forward_exceeds_history_limit :
    (run plainEnv overflowOps (WebView.new plainEnv)).m_historyBack.length = 16 ∧
      s_maxHistoryItems = 15 := by
  decide

/-- C2 (amended): in every state of a constructed view in which `canGoBack()`
holds, `back()` followed by `forward()` leaves the current URL as it was. The
vertical scroll offset is as it was exactly in these cases: the last back entry
has the current URL (nothing is reloaded) and the offset was positive, or the
saved offset of that entry is not positive, or the document has no scroll
range; or the last back entry has another URL and the offset lies within the
scroll range of the document that `forward()` renders. In particular the offset
is restored when that entry has another URL and `forward()` renders the same
bytes as before. -/
theorem back_forward_roundtrip (env : Env) (ops : List Op)
    (hback : canGoBack (run env ops (WebView.new env)) = true) :
    (forward env (back env (run env ops (WebView.new env)))).url
        = (run env ops (WebView.new env)).url ∧
      (∃ item, (run env ops (WebView.new env)).m_historyBack.getLast? = some item) ∧
      (∀ item, (run env ops (WebView.new env)).m_historyBack.getLast? = some item →
        ((forward env (back env (run env ops (WebView.new env)))).vScroll
            = (run env ops (WebView.new env)).vScroll ↔
          (item.url = (run env ops (WebView.new env)).url ∧
            (0 < (run env ops (WebView.new env)).vScroll ∨ item.vScrollPos ≤ 0 ∨
              env.scrollMax (run env ops (WebView.new env)).html = 0)) ∨
          (item.url ≠ (run env ops (WebView.new env)).url ∧
            (run env ops (WebView.new env)).vScroll
              ≤ env.scrollMax (forward env (back env (run env ops (WebView.new env)))).html))) ∧
      (∀ item, (run env ops (WebView.new env)).m_historyBack.getLast? = some item →
        item.url ≠ (run env ops (WebView.new env)).url →
        (forward env (back env (run env ops (WebView.new env)))).html
          = (run env ops (WebView.new env)).html →
        (forward env (back env (run env ops (WebView.new env)))).vScroll
          = (run env ops (WebView.new env)).vScroll) := by
  have hff := reachable_fragmentFree env _ ⟨ops, rfl⟩
  have hsr := reachable_scrollInRange env _ ⟨ops, rfl⟩
  generalize run env ops (WebView.new env) = v at hback hff hsr ⊢
  obtain ⟨hs0, hsM⟩ := hsr
  have key : ∀ item, v.m_historyBack.getLast? = some item →
      (forward env (back env v)).url = v.url ∧
      ((forward env (back env v)).vScroll = v.vScroll ↔
        (item.url = v.url ∧
          (0 < v.vScroll ∨ item.vScrollPos ≤ 0 ∨ env.scrollMax v.html = 0)) ∨
        (item.url ≠ v.url ∧ v.vScroll ≤ env.scrollMax (forward env (back env v)).html)) := by
    intro item hl
    have hitem : item.url.frag = none := hff.2 item (List.mem_of_getLast?_eq_some hl)
    have hb := back_eq env v item hl
    have hcur : (currentHistoryItem env v).url = v.url := rfl
    have hpos : (currentHistoryItem env v).vScrollPos = v.vScroll := rfl
    by_cases hsame : item.url = v.url
    · -- nothing is reloaded in either direction
      have hload := load_of_eq env item.url
        { v with m_historyForward := currentHistoryItem env v :: v.m_historyForward,
                 m_historyBack := v.m_historyBack.dropLast } hsame
      rw [hload] at hb
      have hbfwd : (back env v).m_historyForward
          = currentHistoryItem env v :: v.m_historyForward := by
        rw [hb, restoreScroll_forward]
      have hburl : (back env v).url = v.url := by rw [hb, restoreScroll_url]
      have hbhtml : (back env v).html = v.html := by rw [hb, restoreScroll_html]
      have hbscroll : (back env v).vScroll
          = if item.vScrollPos > 0 then max 0 (min item.vScrollPos (env.scrollMax v.html))
            else v.vScroll := by
        rw [hb, restoreScroll_vScroll]
      have hf := forward_eq env (back env v) _ _ hbfwd
      have hload2 := load_of_eq env (currentHistoryItem env v).url
        { back env v with
          m_historyBack := (back env v).m_historyBack ++ [currentHistoryItem env (back env v)],
          m_historyForward := v.m_historyForward } hburl.symm
      rw [hload2, hpos] at hf
      have hfurl : (forward env (back env v)).url = v.url := by
        rw [hf, restoreScroll_url]; exact hburl
      have hfscroll : (forward env (back env v)).vScroll
          = if v.vScroll > 0 then max 0 (min v.vScroll (env.scrollMax v.html))
            else (back env v).vScroll := by
        rw [hf, restoreScroll_vScroll]; rw [hbhtml]
      refine ⟨hfurl, ?_⟩
      rw [hfscroll, hbscroll]
      simp only [hsame, true_and, ne_eq, not_true_eq_false, false_and, or_false]
      split_ifs with h1 h2 <;> constructor <;> intro h <;> omega
    · -- both directions reload
      have hburl : (back env v).url = item.url := by
        rw [hb, restoreScroll_url, load_url, setFragment_none_of_frag _ hitem]
        exact hff.1
      have hbfwd : (back env v).m_historyForward
          = currentHistoryItem env v :: v.m_historyForward := by
        rw [hb, restoreScroll_forward, load_historyForward]
      have hf := forward_eq env (back env v) _ _ hbfwd
      rw [hcur, hpos] at hf
      have hfurl : (forward env (back env v)).url = v.url := by
        rw [hf, restoreScroll_url, load_url, setFragment_none_of_frag _ hff.1]
        change (back env v).url.frag = none
        rw [hburl]; exact hitem
      have hw : (load env v.url
          { back env v with
            m_historyBack := (back env v).m_historyBack ++ [currentHistoryItem env (back env v)],
            m_historyForward := v.m_historyForward }).vScroll = 0 := by
        apply load_vScroll_of_change _ _ _ hff.1
        change v.url ≠ (back env v).url
        rw [hburl]
        exact fun h => hsame h.symm
      have hfhtml := congrArg WebView.html hf
      rw [restoreScroll_html] at hfhtml
      have hfscroll := congrArg WebView.vScroll hf
      rw [restoreScroll_vScroll, hw, ← hfhtml] at hfscroll
      refine ⟨hfurl, ?_⟩
      rw [hfscroll]
      simp only [hsame, false_and, false_or, ne_eq, not_false_eq_true, true_and]
      split_ifs with h1 <;> constructor <;> intro h <;> omega
  have hex : ∃ item, v.m_historyBack.getLast? = some item := by
    cases hl : v.m_historyBack.getLast? with
    | none =>
      have := List.getLast?_eq_none_iff.mp hl
      simp [canGoBack, this] at hback
    | some item => exact ⟨item, rfl⟩
  obtain ⟨item0, h0⟩ := hex
  refine ⟨(key item0 h0).1, ⟨item0, h0⟩, fun item hl => (key item hl).2, ?_⟩
  intro item hl hne hhtml
  apply ((key item hl).2).mpr
  right
  refine ⟨hne, ?_⟩
  rw [hhtml]
  exact hsM

/-- C2 witness: `a.html`, then `b.html`, scrolled to 7 on a page that can be
scrolled to 1000; going back and forward returns to `b.html` at offset 7. -/
theorem back_forward_roundtrip_witness :
    canGoBack (run pageEnv [.load docA, .load docB, .userScroll 7] (WebView.new pageEnv))
        = true ∧
      (run pageEnv [.load docA, .load docB, .userScroll 7] (WebView.new pageEnv)).vScroll = 7 ∧
      (forward pageEnv (back pageEnv
          (run pageEnv [.load docA, .load docB, .userScroll 7] (WebView.new pageEnv)))).url
        = (run pageEnv [.load docA, .load docB, .userScroll 7] (WebView.new pageEnv)).url ∧
      (forward pageEnv (back pageEnv
          (run pageEnv [.load docA, .load docB, .userScroll 7] (WebView.new pageEnv)))).vScroll
        = (run pageEnv [.load docA, .load docB, .userScroll 7] (WebView.new pageEnv)).vScroll :=
  ⟨by decide, by decide,
    (back_forward_roundtrip pageEnv [.load docA, .load docB, .userScroll 7] (by decide)).1,
    (back_forward_roundtrip pageEnv [.load docA, .load docB, .userScroll 7]
      (by decide)).2.2.2 { url := docA, title := "page", vScrollPos := 0 }
      (by decide) (by decide) (by decide)⟩

/-- C2 (counterexample): load `a.html` (a page that can be scrolled to 1000),
scroll to 100, follow the link `a.html#top` (the engine scrolls to offset 0).
Now `canGoBack()` holds, the offset is 0 and the last back entry is `a.html` at
offset 100; after `back()` and `forward()` the URL is unchanged but the offset
is 100. Second, with a transport that fails from the fourth request on: load
`a.html`, load `b.html`, scroll to 7; `back()` and `forward()` return to
`b.html`, but the re-fetch fails, the empty document has no scroll range, and
the offset is 0. -/
theorem back_forward_scroll_not_restored :
    (canGoBack (run pageEnv
        [.load docA, .userScroll 100, .load (QUrl.withFragment "a.html" "top")]
        (WebView.new pageEnv)) = true ∧
      (run pageEnv [.load docA, .userScroll 100, .load (QUrl.withFragment "a.html" "top")]
        (WebView.new pageEnv)).m_historyBack
        = [{ url := docA, title := "page", vScrollPos := 100 }] ∧
      (run pageEnv [.load docA, .userScroll 100, .load (QUrl.withFragment "a.html" "top")]
        (WebView.new pageEnv)).vScroll = 0 ∧
      (forward pageEnv (back pageEnv (run pageEnv
        [.load docA, .userScroll 100, .load (QUrl.withFragment "a.html" "top")]
        (WebView.new pageEnv)))).vScroll = 100 ∧
      (forward pageEnv (back pageEnv (run pageEnv
        [.load docA, .userScroll 100, .load (QUrl.withFragment "a.html" "top")]
        (WebView.new pageEnv)))).url = docA) ∧
    (canGoBack (run flakyEnv [.load docA, .load docB, .userScroll 7] (WebView.new flakyEnv))
        = true ∧
      (run flakyEnv [.load docA, .load docB, .userScroll 7] (WebView.new flakyEnv)).vScroll
        = 7 ∧
      (forward flakyEnv (back flakyEnv (run flakyEnv
        [.load docA, .load docB, .userScroll 7] (WebView.new flakyEnv)))).vScroll = 0 ∧
      (forward flakyEnv (back flakyEnv (run flakyEnv
        [.load docA, .load docB, .userScroll 7] (WebView.new flakyEnv)))).url = docB) := by
  decide

/-- C3 (code defect): after `load(a); load(b); back()` from a fresh view the
back stack is not empty: `back()` removes the entry for `a`, but the `load` it
calls records the page being left, so the stack holds the entry for `b`. The
forward stack and the current URL are as the claim says. -/
theorem back_after_two_loads_keeps_entry :
    (run plainEnv [.load docA, .load docB, .back] (WebView.new plainEnv)).m_historyBack
        = [{ url := docB, title := "", vScrollPos := 0 }] ∧
      (run plainEnv [.load docA, .load docB, .back] (WebView.new plainEnv)).m_historyForward
        = [{ url := docB, title := "", vScrollPos := 0 }] ∧
      (run plainEnv [.load docA, .load docB, .back] (WebView.new plainEnv)).url = docA ∧
      (run plainEnv [.load docA, .load docB] (WebView.new plainEnv)).m_historyBack
        = [{ url := docA, title := "", vScrollPos := 0 }] := by
  decide

/-- C4: when the current URL is valid and the target differs from it, `load`
leaves as back stack the last 15 elements of the previous back stack followed
by the snapshot of the current state: its URL, its title (the caption of the
rendered document) and its vertical scroll offset. The result is a suffix of
that list (new entry last, order kept); below 15 entries nothing is evicted,
and at 15 entries exactly the entry at index 0 is. -/
theorem load_records_current (env : Env) (v : WebView) (target : QUrl)
    (hvalid : v.url.isValid = true) (hne : target ≠ v.url) :
    (load env target v).m_historyBack
        = lastN 15 (v.m_historyBack
            ++ [{ url := v.url, title := env.caption v.html, vScrollPos := v.vScroll }]) ∧
      (load env target v).m_historyBack.getLast?
        = some { url := v.url, title := env.caption v.html, vScrollPos := v.vScroll } ∧
      (load env target v).m_historyBack <:+ v.m_historyBack
        ++ [{ url := v.url, title := env.caption v.html, vScrollPos := v.vScroll }] ∧
      (load env target v).m_historyBack.length ≤ 15 ∧
      (v.m_historyBack.length < 15 →
        (load env target v).m_historyBack = v.m_historyBack
          ++ [{ url := v.url, title := env.caption v.html, vScrollPos := v.vScroll }]) ∧
      (v.m_historyBack.length = 15 →
        (load env target v).m_historyBack = v.m_historyBack.tail
          ++ [{ url := v.url, title := env.caption v.html, vScrollPos := v.vScroll }]) := by
  have hc : currentHistoryItem env v
      = { url := v.url, title := env.caption v.html, vScrollPos := v.vScroll } := rfl
  have hb : (load env target v).m_historyBack
      = trimHistory (v.m_historyBack
          ++ [{ url := v.url, title := env.caption v.html, vScrollPos := v.vScroll }]) := by
    rw [load_historyBack, hc]; simp [hne, hvalid]
  rw [hb]
  refine ⟨trimHistory_eq_lastN _, ?_, ?_, trimHistory_length_le _, ?_, ?_⟩
  · rw [trimHistory_eq_drop, List.getLast?_drop]
    simp [s_maxHistoryItems]
    omega
  · rw [trimHistory_eq_drop]; exact List.drop_suffix _ _
  · intro hlt
    apply trimHistory_of_le
    simp [s_maxHistoryItems]; omega
  · intro heq
    rw [trimHistory_eq_drop]
    have : (v.m_historyBack
        ++ [({ url := v.url, title := env.caption v.html, vScrollPos := v.vScroll }
              : HistoryItem)]).length - s_maxHistoryItems = 1 := by
      simp [s_maxHistoryItems, heq]
    rw [this]
    cases hl : v.m_historyBack with
    | nil => rw [hl] at heq; simp at heq
    | cons x xs => simp

/-- C4 witness: the view `sixteenLoaded` shows `d16` at offset 40 with 15 back
entries; loading `d17` evicts the entry for `d01` and appends the entry for
`d16` with title `page` and offset 40. -/
theorem load_records_current_witness :
    sixteenLoaded.url.isValid = true ∧ QUrl.ofText "d17" ≠ sixteenLoaded.url ∧
      sixteenLoaded.m_historyBack.length = 15 ∧
      (load pageEnv (QUrl.ofText "d17") sixteenLoaded).m_historyBack
        = sixteenLoaded.m_historyBack.tail
          ++ [{ url := sixteenLoaded.url, title := pageEnv.caption sixteenLoaded.html,
                vScrollPos := sixteenLoaded.vScroll }] ∧
      ({ url := sixteenLoaded.url, title := pageEnv.caption sixteenLoaded.html,
         vScrollPos := sixteenLoaded.vScroll } : HistoryItem)
        = { url := QUrl.ofText "d16", title := "page", vScrollPos := 40 } ∧
      (load pageEnv (QUrl.ofText "d17") sixteenLoaded).m_historyBack.map (fun i => i.url)
        = (twentyDocs.take 16).drop 1 :=
  ⟨by decide, by decide, by decide,
    (load_records_current pageEnv sixteenLoaded (QUrl.ofText "d17")
      (by decide) (by decide)).2.2.2.2.2 (by decide),
    by decide, by decide⟩

/-- C5: a `load` whose target, fragment removed, equals the current URL makes
no network request, no `setHtml` and no `urlChanged`; its only call is one
`scrollToAnchor` when the target carries a fragment. Hence, from a constructed
view showing another document, `load(url#f1); load(url#f2)` makes one request
and two `scrollToAnchor` calls, and loading the same valid URL twice makes one
request and one render. -/
theorem load_same_document_effects (env : Env) :
    (∀ (v : WebView) (t : QUrl), v.url.isValid = true → t.setFragment none = v.url →
      (load env t v).log = v.log ++ anchorEvents t ∧
      (t.hasFragment = true → anchorEvents t = [.scrollToAnchor t.fragment]) ∧
      (t.hasFragment = false → anchorEvents t = []) ∧
      fetchCount (load env t v).log = fetchCount v.log ∧
      renderCount (load env t v).log = renderCount v.log ∧
      urlChangedCount (load env t v).log = urlChangedCount v.log ∧
      anchorCount (load env t v).log = anchorCount v.log + (if t.hasFragment then 1 else 0)) ∧
    (∀ (ops : List Op) (url : QUrl) (f₁ f₂ : String), url.isValid = true → url.frag = none →
      url ≠ (run env ops (WebView.new env)).url →
      fetchCount (load env (url.setFragment (some f₂))
          (load env (url.setFragment (some f₁)) (run env ops (WebView.new env)))).log
        = fetchCount (run env ops (WebView.new env)).log + 1 ∧
      anchorCount (load env (url.setFragment (some f₂))
          (load env (url.setFragment (some f₁)) (run env ops (WebView.new env)))).log
        = anchorCount (run env ops (WebView.new env)).log + 2) ∧
    (∀ (ops : List Op) (url : QUrl), url.isValid = true →
      url.setFragment none ≠ (run env ops (WebView.new env)).url →
      fetchCount (load env url (load env url (run env ops (WebView.new env)))).log
        = fetchCount (run env ops (WebView.new env)).log + 1 ∧
      renderCount (load env url (load env url (run env ops (WebView.new env)))).log
        = renderCount (run env ops (WebView.new env)).log + 1) := by
  refine ⟨?_, ?_, ?_⟩
  · intro v t _ hsame
    have hlog := load_log_same_document env v t hsame
    refine ⟨hlog, fun h => by simp [anchorEvents, h], fun h => by simp [anchorEvents, h],
      ?_, ?_, ?_, ?_⟩
    · rw [hlog, fetchCount_append, anchorEvents_fetchCount]; rfl
    · rw [hlog, renderCount_append, anchorEvents_renderCount]; rfl
    · rw [hlog]
      unfold urlChangedCount anchorEvents
      split_ifs <;> simp [Event.isUrlChanged]
    · rw [hlog, anchorCount_append, anchorEvents_anchorCount]
  · intro ops url f₁ f₂ hvalid hfrag hne
    have hff := reachable_fragmentFree env _ ⟨ops, rfl⟩
    generalize run env ops (WebView.new env) = v at hne hff ⊢
    have hs : ∀ f, (url.setFragment (some f)).setFragment none = url := fun f => by
      rw [setFragment_setFragment]; exact setFragment_none_of_frag _ hfrag
    have h1 : url.setFragment (some f₁) ≠ v.url := by
      intro h
      have := congrArg QUrl.frag h
      rw [hff.1] at this
      simp at this
    obtain ⟨data, hl1⟩ := load_log_change env v (url.setFragment (some f₁))
      (isValid_setFragment_some url f₁ hvalid) h1
      (by rw [hs]; exact hne)
    have hu1 : (load env (url.setFragment (some f₁)) v).url = url := by
      rw [load_url env _ v hff.1, hs]
    have hl2 := load_log_same_document env (load env (url.setFragment (some f₁)) v)
      (url.setFragment (some f₂)) (by rw [hs, hu1])
    rw [hl2, hl1]
    constructor
    · simp [fetchCount, anchorEvents, QUrl.hasFragment, Event.isGet]
    · simp [anchorCount, anchorEvents, QUrl.hasFragment, Event.isScrollToAnchor]
  · intro ops url hvalid hne
    have hff := reachable_fragmentFree env _ ⟨ops, rfl⟩
    generalize run env ops (WebView.new env) = v at hne hff ⊢
    have h1 : url ≠ v.url := by
      intro h
      apply hne
      rw [h]
      exact setFragment_none_of_frag _ hff.1
    obtain ⟨data, hl1⟩ := load_log_change env v url hvalid h1 hne
    have hu1 : (load env url v).url = url.setFragment none := load_url env _ v hff.1
    have hl2 := load_log_same_document env (load env url v) url hu1.symm
    rw [hl2, hl1]
    constructor
    · simp only [fetchCount_append, anchorEvents_fetchCount]
      simp [fetchCount, Event.isGet]
    · simp only [renderCount_append, anchorEvents_renderCount]
      simp [renderCount, Event.isSetHtml]

/-- C5 witness: a view on `a.html` loading `a.html#x`. -/
theorem load_same_document_effects_witness :
    (load plainEnv docA (WebView.new plainEnv)).url.isValid = true ∧
      (QUrl.withFragment "a.html" "x").setFragment none
        = (load plainEnv docA (WebView.new plainEnv)).url ∧
      (load plainEnv (QUrl.withFragment "a.html" "x")
          (load plainEnv docA (WebView.new plainEnv))).log
        = (load plainEnv docA (WebView.new plainEnv)).log
            ++ anchorEvents (QUrl.withFragment "a.html" "x") :=
  ⟨by decide, by decide,
    ((load_same_document_effects plainEnv).1 (load plainEnv docA (WebView.new plainEnv))
      (QUrl.withFragment "a.html" "x") (by decide) (by decide)).1⟩

/-- C6 (amended): load, from a fresh view, 20 URLs that are valid also without
their fragment and none of which is the fragment-stripped form of the one
loaded just before it (20 pairwise distinct valid URLs without fragment are
such a sequence). After the first `k` loads the back stack holds the last 15 of
the entries recorded on leaving the first `k - 1` URLs: the first load records
nothing, after 16 loads all 15 recorded entries are present, and after 20 loads
19 entries have been recorded of which the 4 oldest are evicted, leaving
exactly 15, those of the 5th to the 19th URL. The forward stack is empty. -/
theorem twenty_loads_history (env : Env) (urls : List QUrl) (hlen : urls.length = 20)
    (hvalid : ∀ u ∈ urls, (u.setFragment none).isValid = true)
    (hchain : noImmediateRevisit urls = true) :
    (∀ k, k ≤ 20 →
      (run env ((urls.take k).map Op.load) (WebView.new env)).m_historyBack.map
          (fun i => i.url)
        = lastN 15 ((urls.map (fun u => u.setFragment none)).take (k - 1))) ∧
      (run env ((urls.take 1).map Op.load) (WebView.new env)).m_historyBack = [] ∧
      (run env ((urls.take 16).map Op.load) (WebView.new env)).m_historyBack.map
          (fun i => i.url)
        = (urls.map (fun u => u.setFragment none)).take 15 ∧
      (run env (urls.map Op.load) (WebView.new env)).m_historyBack.map (fun i => i.url)
        = ((urls.map (fun u => u.setFragment none)).take 19).drop 4 ∧
      (run env (urls.map Op.load) (WebView.new env)).m_historyBack.length = 15 ∧
      (run env (urls.map Op.load) (WebView.new env)).m_historyForward = [] := by
  have key : ∀ k, k ≤ 20 →
      (run env ((urls.take k).map Op.load) (WebView.new env)).m_historyBack.map
          (fun i => i.url)
        = lastN 15 ((urls.map (fun u => u.setFragment none)).take (k - 1)) := by
    intro k hk
    have h := (loads_from_new env (urls.take k)
      (fun u hu => hvalid u (List.mem_of_mem_take hu))
      (noImmediateRevisit_take k urls hchain)).1
    rw [h, List.map_take, take_dropLast _ k (by rw [List.length_map, hlen]; exact hk)]
  have hfull : urls.take 20 = urls := by
    rw [← hlen]; exact List.take_length urls
  have h20 := key 20 (le_refl _)
  rw [hfull] at h20
  have hmap : (run env (urls.map Op.load) (WebView.new env)).m_historyBack.map (fun i => i.url)
      = ((urls.map (fun u => u.setFragment none)).take 19).drop 4 := by
    rw [h20]
    unfold lastN
    simp [hlen]
  refine ⟨key, ?_, ?_, hmap, ?_, (loads_from_new env urls hvalid hchain).2⟩
  · have h1 := key 1 (by norm_num)
    simp only [Nat.sub_self, List.take_zero] at h1
    have h1' : lastN 15 ([] : List QUrl) = [] := rfl
    rw [h1'] at h1
    exact List.map_eq_nil_iff.mp h1
  · have h16 := key 16 (by norm_num)
    rw [h16]
    apply lastN_of_le
    simp
  · have := congrArg List.length hmap
    rw [List.length_map] at this
    rw [this]
    simp [hlen]

/-- C6 witness: the twenty documents `d01` to `d20`. -/
theorem twenty_loads_history_witness :
    twentyDocs.length = 20 ∧ (∀ u ∈ twentyDocs, (u.setFragment none).isValid = true) ∧
      noImmediateRevisit twentyDocs = true ∧
      (run pageEnv ((twentyDocs.take 1).map Op.load) (WebView.new pageEnv)).m_historyBack = [] ∧
      (run pageEnv (twentyDocs.map Op.load) (WebView.new pageEnv)).m_historyBack.map
          (fun i => i.url)
        = ((twentyDocs.map (fun u => u.setFragment none)).take 19).drop 4 ∧
      (run pageEnv (twentyDocs.map Op.load) (WebView.new pageEnv)).m_historyBack.length = 15 :=
  ⟨by decide, by decide, by decide,
    (twenty_loads_history pageEnv twentyDocs (by decide) (by decide) (by decide)).2.1,
    (twenty_loads_history pageEnv twentyDocs (by decide) (by decide) (by decide)).2.2.2.1,
    (twenty_loads_history pageEnv twentyDocs (by decide) (by decide) (by decide)).2.2.2.2.1⟩

/-- C6 (counterexample): of the twenty pairwise distinct valid URLs
`twentyDocs`, the first load records nothing; after 16 loads the back stack
holds the 15 entries recorded so far (`d01` to `d15`), after 17 loads `d02` to
`d16`, and after all 20 loads `d05` to `d19`: 19 entries are recorded and 4 are
evicted, not 5. The twenty pairwise distinct valid URLs `twentyAnchored` leave
only 9 entries in the back stack, and the twenty pairwise distinct valid
fragment-only URLs `twentyFragments` leave none. -/
theorem twenty_loads_counterexample :
    (twentyDocs.length = 20 ∧ twentyDocs.Nodup ∧ (∀ u ∈ twentyDocs, u.isValid = true) ∧
      (run pageEnv ((twentyDocs.take 1).map Op.load)
          (WebView.new pageEnv)).m_historyBack = [] ∧
      (run pageEnv ((twentyDocs.take 16).map Op.load)
          (WebView.new pageEnv)).m_historyBack.map (fun i => i.url)
        = twentyDocs.take 15 ∧
      (run pageEnv ((twentyDocs.take 17).map Op.load)
          (WebView.new pageEnv)).m_historyBack.map (fun i => i.url)
        = (twentyDocs.take 16).drop 1 ∧
      (run pageEnv (twentyDocs.map Op.load)
          (WebView.new pageEnv)).m_historyBack.map (fun i => i.url)
        = (twentyDocs.take 19).drop 4) ∧
    (twentyAnchored.length = 20 ∧ twentyAnchored.Nodup ∧
      (∀ u ∈ twentyAnchored, u.isValid = true) ∧
      (run pageEnv (twentyAnchored.map Op.load)
          (WebView.new pageEnv)).m_historyBack.length = 9) ∧
    (twentyFragments.length = 20 ∧ twentyFragments.Nodup ∧
      (∀ u ∈ twentyFragments, u.isValid = true) ∧
      (run pageEnv (twentyFragments.map Op.load)
          (WebView.new pageEnv)).m_historyBack = []) := by
  decide

/-- C7: for an invalid URL `resourceLoadCallBack` returns empty bytes and makes
no network request; for a valid URL it makes exactly one request, returns the
bytes of the reply when the reply carries no error, and empty bytes when it
carries any error. -/
theorem resourceLoadCallBack_result (env : Env) (url : QUrl) (v : WebView) :
    (url.isValid = false →
      (resourceLoadCallBack env url v).1.data = [] ∧ (resourceLoadCallBack env url v).2 = v) ∧
    (url.isValid = true →
      (resourceLoadCallBack env url v).2 = emit (.get url) v ∧
      fetchCount (resourceLoadCallBack env url v).2.log = fetchCount v.log + 1 ∧
      ((env.reply (fetchCount v.log) url).error = NoError →
        (resourceLoadCallBack env url v).1.data = (env.reply (fetchCount v.log) url).body) ∧
      ((env.reply (fetchCount v.log) url).error ≠ NoError →
        (resourceLoadCallBack env url v).1.data = [])) := by
  constructor
  · intro h
    simp [resourceLoadCallBack, h]
  · intro h
    refine ⟨?_, ?_, ?_, ?_⟩
    · simp [resourceLoadCallBack, h]
    · simp [resourceLoadCallBack, h, fetchCount, Event.isGet]
    · intro he
      simp [resourceLoadCallBack, h, exec_eq_slot, finishedSlot, he]
    · intro he
      simp [resourceLoadCallBack, h, exec_eq_slot, finishedSlot, he]

/-- C7 witness: an invalid URL, and a valid one answered without error. -/
theorem resourceLoadCallBack_result_witness :
    (QUrl.empty.isValid = false ∧
      (resourceLoadCallBack plainEnv QUrl.empty (WebView.new plainEnv)).1.data = []) ∧
    (docA.isValid = true ∧
      (plainEnv.reply (fetchCount (WebView.new plainEnv).log) docA).error = NoError ∧
      (resourceLoadCallBack plainEnv docA (WebView.new plainEnv)).1.data
        = (plainEnv.reply (fetchCount (WebView.new plainEnv).log) docA).body) :=
  ⟨⟨by decide,
    ((resourceLoadCallBack_result plainEnv QUrl.empty (WebView.new plainEnv)).1 (by decide)).1⟩,
   ⟨by decide, by decide,
    ((resourceLoadCallBack_result plainEnv docA (WebView.new plainEnv)).2 (by decide)).2.2.1
      (by decide)⟩⟩

/-- C8: for a valid URL, whatever the reply (error or not) and however many
other events the nested loop dispatches first, `exit()` is called on the local
event loop exactly once, and the loop state `resourceLoadCallBack` ends with is
the one the completion lambda leaves: the lambda calls `exit()` once on every
path, and `exec` contributes nothing beyond running the lambda. -/
theorem nested_loop_exits_once (env : Env) (url : QUrl) (v : WebView)
    (hvalid : url.isValid = true) :
    (resourceLoadCallBack env url v).1.loop = some { exitCalls := 1 } ∧
      (resourceLoadCallBack env url v).1.loop
        = some (finishedSlot (env.reply (fetchCount v.log) url)
            { data := [], loop := { exitCalls := 0 } }).loop ∧
      (∀ (reply : QNetworkReply) (c : Locals),
        (finishedSlot reply c).loop.exitCalls = c.loop.exitCalls + 1) ∧
      (∀ (slot : Locals → Locals) (n : Nat) (c : Locals),
        QEventLoop.exec slot n c = slot c) := by
  refine ⟨?_, ?_, ?_, exec_eq_slot⟩
  · by_cases he : (env.reply (fetchCount v.log) url).error = NoError <;>
      simp [resourceLoadCallBack, hvalid, exec_eq_slot, finishedSlot, he, QEventLoop.exit]
  · simp [resourceLoadCallBack, hvalid, exec_eq_slot]
  · intro reply c
    by_cases he : reply.error = NoError <;> simp [finishedSlot, he, QEventLoop.exit]

/-- C8 witness: the request for `a.html` from a fresh view. -/
theorem nested_loop_exits_once_witness :
    docA.isValid = true ∧
      (resourceLoadCallBack plainEnv docA (WebView.new plainEnv)).1.loop
        = some { exitCalls := 1 } :=
  ⟨by decide, (nested_loop_exits_once plainEnv docA (WebView.new plainEnv) (by decide)).1⟩

/-- C9: in every state of a constructed view, `setZoomLevel(level)` leaves the
zoom level at `min(max(level, 0), 18)`, where the zoom table has 19 entries; so
the zoom level of every such state lies in `[0, 19)`. In particular
`setZoomLevel(-5)` gives 0 and `setZoomLevel(1000)` gives 18. -/
theorem setZoomLevel_clamps (env : Env) (ops : List Op) (level : Int) :
    zoomLevel (setZoomLevel env level (run env ops (WebView.new env)))
        = min (max level 0) 18 ∧
      availableZoomLevels.length = 19 ∧
      0 ≤ zoomLevel (run env ops (WebView.new env)) ∧
      zoomLevel (run env ops (WebView.new env)) < 19 ∧
      zoomLevel (setZoomLevel env (-5) (run env ops (WebView.new env))) = 0 ∧
      zoomLevel (setZoomLevel env 1000 (run env ops (WebView.new env))) = 18 := by
  have hz := reachable_zoomInRange env _ ⟨ops, rfl⟩
  generalize run env ops (WebView.new env) = v at hz ⊢
  obtain ⟨h0, h1⟩ := hz
  rw [availableZoomLevels_length] at h1
  have key : ∀ l : Int, zoomLevel (setZoomLevel env l v) = min (max l 0) 18 := by
    intro l
    unfold zoomLevel
    rw [setZoomLevel_zoom]
    split_ifs with h
    · rw [← h] at h0 h1
      rw [← h, max_eq_left h0, min_eq_left (by omega)]
    · rw [max_comm]
  refine ⟨key level, rfl, h0, h1, ?_, ?_⟩
  · rw [key]; rfl
  · rw [key]; rfl

/-- C10 (code defect): `setZoomLevel` compares the requested level with the
current one before clamping it. At zoom level 0 `zoomOut()` requests -1, which
is clamped to 0: the level is unchanged, yet the scale factor is set again and
`zoomLevelChanged` is emitted. The same happens for `zoomIn()` at level 18. -/
theorem zoom_at_bounds_emits :
    zoomLevel (run plainEnv [.setZoomLevel 0] (WebView.new plainEnv)) = 0 ∧
      zoomLevel (run plainEnv [.setZoomLevel 0, .zoomOut] (WebView.new plainEnv)) = 0 ∧
      (run plainEnv [.setZoomLevel 0, .zoomOut] (WebView.new plainEnv)).log
        = (run plainEnv [.setZoomLevel 0] (WebView.new plainEnv)).log
            ++ [.setZoomFactor 30 96, .zoomLevelChanged] ∧
      zoomChangedCount (run plainEnv [.setZoomLevel 0, .zoomOut] (WebView.new plainEnv)).log
        = zoomChangedCount (run plainEnv [.setZoomLevel 0] (WebView.new plainEnv)).log + 1 ∧
      zoomLevel (run plainEnv [.setZoomLevel 18] (WebView.new plainEnv)) = 18 ∧
      zoomLevel (run plainEnv [.setZoomLevel 18, .zoomIn] (WebView.new plainEnv)) = 18 ∧
      (run plainEnv [.setZoomLevel 18, .zoomIn] (WebView.new plainEnv)).log
        = (run plainEnv [.setZoomLevel 18] (WebView.new plainEnv)).log
            ++ [.setZoomFactor 300 96, .zoomLevelChanged] ∧
      zoomChangedCount (run plainEnv [.setZoomLevel 18, .zoomIn] (WebView.new plainEnv)).log
        = zoomChangedCount (run plainEnv [.setZoomLevel 18] (WebView.new plainEnv)).log + 1 := by
  decide

end Zeal.Browser
